import Mathlib

/-!
Shallow embedding of the FERS entity-graph transformation and deflection
reconstruction code (fers_core/fers/fers.py and
fers_core/fers/deformation_utils.py).

Coordinates are embedded as rationals.  Entities carry the integer ids that
the Python classes draw from process-wide counters; a `Counters` record is
threaded explicitly through every operation that constructs entities.
Shared objects (sections, hinges, supports, referenced members) are
represented by their integer ids.  Fallible dictionary lookups (Python
KeyError) are embedded with `Except`.
-/

/-- A 3-vector of rational coordinates, `(x, y, z)`. -/
abbrev Vec3 : Type := ℚ × ℚ × ℚ

/-- Decidable equality of `Except` values, so that concrete runs of the
fallible operations can be checked by `decide`. -/
instance instDecidableEqExcept {ε α : Type} [DecidableEq ε] [DecidableEq α] :
    DecidableEq (Except ε α) := fun a b =>
  match a, b with
  | Except.error e1, Except.error e2 =>
      if h : e1 = e2 then Decidable.isTrue (by subst h; rfl)
      else Decidable.isFalse (fun hc => h (by cases hc; rfl))
  | Except.error _, Except.ok _ => Decidable.isFalse (fun hc => Except.noConfusion hc)
  | Except.ok _, Except.error _ => Decidable.isFalse (fun hc => Except.noConfusion hc)
  | Except.ok a1, Except.ok a2 =>
      if h : a1 = a2 then Decidable.isTrue (by subst h; rfl)
      else Decidable.isFalse (fun hc => h (by cases hc; rfl))

/-- A structural Node: unique id, coordinates, optional shared NodalSupport
(represented by its id) and optional classification tag. -/
structure Node where
  id : ℕ
  X : ℚ
  Y : ℚ
  Z : ℚ
  nodal_support : Option ℕ
  classification : Option String
deriving DecidableEq

/-- A structural Member.  Endpoint nodes are held by value; the section,
hinges and the referenced member are shared objects represented by id
(`section` is a Lean keyword, hence the field name `section_id`). -/
structure Member where
  id : ℕ
  start_node : Node
  end_node : Node
  section_id : ℕ
  start_hinge : Option ℕ
  end_hinge : Option ℕ
  classification : String
  rotation_angle : Option ℚ
  chi : Option ℚ
  reference_member : Option ℕ
  reference_node : Option Node
deriving DecidableEq

/-- A MemberSet: an ordered list of Members plus group-level attributes. -/
structure MemberSet where
  id : ℕ
  members : List Member
  classification : String
  L_y : Option ℚ
  L_z : Option ℚ
deriving DecidableEq

/-- The FERS model.  Only the `member_sets` list is embedded: load cases,
combinations, imperfection cases, analysis options and results are never
touched by the operations under study. -/
structure FERS where
  member_sets : List MemberSet
deriving DecidableEq

/-- The process-wide identity counters for the entity kinds involved. -/
structure Counters where
  node_id : ℕ
  member_id : ℕ
  member_set_id : ℕ
deriving DecidableEq

/-- Modelled from the spec: the Node constructor (class Node is not under
src/) assigns the next process-wide node id and stores the optional
nodal-support reference and classification tag; call sites that omit an
optional argument pass `none`. -/
def Node.create (c : Counters) (X Y Z : ℚ) (nodal_support : Option ℕ)
    (classification : Option String) : Node × Counters :=
  (⟨c.node_id, X, Y, Z, nodal_support, classification⟩,
   { c with node_id := c.node_id + 1 })

/-- Modelled from the spec: the Member constructor (class Member is not
under src/) assigns the next process-wide member id; optional fields that a
call site does not pass default to `none`. -/
def Member.create (c : Counters) (start_node end_node : Node) (section_id : ℕ)
    (start_hinge end_hinge : Option ℕ) (classification : String)
    (rotation_angle chi : Option ℚ) (reference_member : Option ℕ)
    (reference_node : Option Node) : Member × Counters :=
  (⟨c.member_id, start_node, end_node, section_id, start_hinge, end_hinge,
    classification, rotation_angle, chi, reference_member, reference_node⟩,
   { c with member_id := c.member_id + 1 })

/-- Modelled from the spec: the MemberSet constructor (class MemberSet is
not under src/) assigns the next process-wide member-set id unless an
explicit `member_set_id` is passed, and stores the group-level buckling
lengths `L_y`, `L_z`, which default to absent when not passed. -/
def MemberSet.create (c : Counters) (members : List Member)
    (classification : String) (L_y L_z : Option ℚ)
    (member_set_id : Option ℕ) : MemberSet × Counters :=
  match member_set_id with
  | some i => (⟨i, members, classification, L_y, L_z⟩, c)
  | none =>
      (⟨c.member_set_id, members, classification, L_y, L_z⟩,
       { c with member_set_id := c.member_set_id + 1 })

/-- fers.py `get_all_member_sets`: returns the member-set list. -/
def FERS.get_all_member_sets (m : FERS) : List MemberSet :=
  m.member_sets

/-- The sequence of Members visited by the nested loops
`for member_set in self.member_sets: for member in member_set.members`. -/
def FERS.memberWalk (m : FERS) : List Member :=
  (m.member_sets.map MemberSet.members).flatten

/-- The sequence of Nodes visited by `get_all_nodes`: for each visited
Member, its start node then its end node. -/
def FERS.nodeWalk (m : FERS) : List Node :=
  m.memberWalk.flatMap (fun mem => [mem.start_node, mem.end_node])

/-- The id-deduplicating accumulation loop shared by `get_all_members` and
`get_all_nodes`: append an element iff its key has not been seen. -/
def firstSeenAux {α : Type} (key : α → ℕ) : List α → List ℕ → List α
  | [], _ => []
  | x :: xs, seen =>
      if key x ∈ seen then firstSeenAux key xs seen
      else x :: firstSeenAux key xs (key x :: seen)

/-- fers.py `get_all_members`: walk every member set's members, collecting
each Member the first time its id is seen. -/
def FERS.get_all_members (m : FERS) : List Member :=
  firstSeenAux Member.id m.memberWalk []

/-- fers.py `get_all_nodes`: walk every member's start node then end node,
collecting each Node the first time its id is seen. -/
def FERS.get_all_nodes (m : FERS) : List Node :=
  firstSeenAux Node.id m.nodeWalk []

/-- fers.py `translate_member_set`, inner loop: for each member create a
fresh start node and a fresh end node at the translated coordinates
(carrying the nodal support but no classification) and a fresh member
carrying section and classification only. -/
def translate_member_set_members (v : Vec3) :
    List Member → Counters → List Member × Counters
  | [], c => ([], c)
  | mem :: rest, c =>
      let p1 := Node.create c (mem.start_node.X + v.1) (mem.start_node.Y + v.2.1)
        (mem.start_node.Z + v.2.2) mem.start_node.nodal_support none
      let p2 := Node.create p1.2 (mem.end_node.X + v.1) (mem.end_node.Y + v.2.1)
        (mem.end_node.Z + v.2.2) mem.end_node.nodal_support none
      let p3 := Member.create p2.2 p1.1 p2.1 mem.section_id none none
        mem.classification none none none none
      let tail := translate_member_set_members v rest p3.2
      (p3.1 :: tail.1, tail.2)

/-- fers.py `translate_member_set`: translate every member, then build a
fresh MemberSet carrying only the classification. -/
def translate_member_set (ms : MemberSet) (v : Vec3) (c : Counters) :
    MemberSet × Counters :=
  let p := translate_member_set_members v ms.members c
  MemberSet.create p.2 p.1 ms.classification none none none

/-- Keys of the `node_mapping` dictionary in
`create_combined_model_pattern`.  The code inserts under 2-tuples
`(original_node.id, i)` but tests membership of the 3-tuple of translated
coordinates; a Python dict can hold both shapes, so the key type is the sum
of the two. -/
inductive NMKey where
  | idCopy (node_id : ℕ) (copy : ℕ)
  | coords (x y z : ℚ)
deriving DecidableEq

/-- The `node_mapping` dictionary, as an insertion-ordered association
list (all inserted keys are distinct, so first-match lookup agrees with
Python dict lookup). -/
abbrev NodeMap : Type := List (NMKey × Node)

/-- Dictionary lookup in `node_mapping`. -/
def nmLookup (nm : NodeMap) (k : NMKey) : Option Node :=
  (nm.find? (fun p => decide (p.1 = k))).map Prod.snd

/-- Node-duplication loop body of `create_combined_model_pattern` for one
copy index `i` with total translation `tt`: for each original node, if no
mapping entry equals the translated coordinate triple (which never
happens, since entries are keyed by `(id, copy)` pairs), create a new
translated node and store it under `(original_node.id, i)`. -/
def copyNodes (i : ℕ) (tt : Vec3) :
    List Node → NodeMap × Counters → NodeMap × Counters
  | [], st => st
  | n :: rest, (nm, c) =>
      let cx := n.X + tt.1
      let cy := n.Y + tt.2.1
      let cz := n.Z + tt.2.2
      if (nmLookup nm (NMKey.coords cx cy cz)).isSome then
        copyNodes i tt rest (nm, c)
      else
        let p := Node.create c cx cy cz n.nodal_support n.classification
        copyNodes i tt rest (nm ++ [(NMKey.idCopy n.id i, p.1)], p.2)

/-- First pass of `create_combined_model_pattern`: run the node-duplication
loop for every copy index `i = 1 .. count - 1`. -/
def buildNodeMapping (nodes : List Node) (count : ℕ) (sp : Vec3)
    (c : Counters) : NodeMap × Counters :=
  (List.range' 1 (count - 1)).foldl
    (fun st i =>
      copyNodes i (sp.1 * (i : ℚ), sp.2.1 * (i : ℚ), sp.2.2 * (i : ℚ)) nodes st)
    ([], c)

/-- The KeyError raised by a failed `node_mapping[(node_id, i)]` lookup. -/
inductive PatternError where
  | missing_node (node_id : ℕ) (copy : ℕ)
deriving DecidableEq

/-- The `member_mapping` dictionary: original member id to the list of its
per-copy duplicates' ids, in creation (= copy-index) order. -/
abbrev MMap : Type := List (ℕ × List ℕ)

/-- Dictionary lookup in `member_mapping`. -/
def mmLookup (mm : MMap) (k : ℕ) : Option (List ℕ) :=
  (mm.find? (fun p => decide (p.1 = k))).map Prod.snd

/-- The `member_mapping` update: start an entry for the original member if
absent, then append the new member's id to it. -/
def mmAppend (mm : MMap) (k newId : ℕ) : MMap :=
  match mmLookup mm k with
  | none => mm ++ [(k, [newId])]
  | some _ => mm.map (fun p => if p.1 = k then (p.1, p.2 ++ [newId]) else p)

/-- A `node_mapping[(node_id, i)]` lookup: KeyError when absent. -/
def nmLookupE (nm : NodeMap) (nid i : ℕ) : Except PatternError Node :=
  match nmLookup nm (NMKey.idCopy nid i) with
  | some n => Except.ok n
  | none => Except.error (PatternError.missing_node nid i)

/-- Reference-node resolution in the member-duplication loop: look up the
duplicate of the referenced node for this copy, or pass `none` through. -/
def resolveRefNode (nm : NodeMap) (i : ℕ) :
    Option Node → Except PatternError (Option Node)
  | none => Except.ok none
  | some rn =>
      match nmLookupE nm rn.id i with
      | Except.error e => Except.error e
      | Except.ok n => Except.ok (some n)

/-- Member-duplication body of `create_combined_model_pattern` for one
member and copy index `i`: resolve start, end and reference node through
`node_mapping`, create the duplicate member (hinges, classification,
rotation angle, chi carried over; `reference_member` still the original's
reference, to be rewired in the final pass) and record it in
`member_mapping`. -/
def dupMember (nm : NodeMap) (i : ℕ) (mem : Member) (mm : MMap)
    (c : Counters) : Except PatternError (Member × MMap × Counters) :=
  match nmLookupE nm mem.start_node.id i with
  | Except.error e => Except.error e
  | Except.ok ns =>
      match nmLookupE nm mem.end_node.id i with
      | Except.error e => Except.error e
      | Except.ok ne =>
          match resolveRefNode nm i mem.reference_node with
          | Except.error e => Except.error e
          | Except.ok nr =>
              let p := Member.create c ns ne mem.section_id mem.start_hinge
                mem.end_hinge mem.classification mem.rotation_angle mem.chi
                mem.reference_member nr
              Except.ok (p.1, mmAppend mm mem.id p.1.id, p.2)

/-- Duplicate every member of one member set for copy index `i`. -/
def dupMembers (nm : NodeMap) (i : ℕ) :
    List Member → MMap × Counters →
    Except PatternError (List Member × MMap × Counters)
  | [], st => Except.ok ([], st.1, st.2)
  | mem :: rest, st =>
      match dupMember nm i mem st.1 st.2 with
      | Except.error e => Except.error e
      | Except.ok r =>
          match dupMembers nm i rest (r.2.1, r.2.2) with
          | Except.error e => Except.error e
          | Except.ok rs => Except.ok (r.1 :: rs.1, rs.2.1, rs.2.2)

/-- Duplicate every member set for copy index `i`; each new set carries the
original's classification and buckling lengths `L_y`, `L_z` and gets a
fresh id. -/
def dupSets (nm : NodeMap) (i : ℕ) :
    List MemberSet → MMap × Counters →
    Except PatternError (List MemberSet × MMap × Counters)
  | [], st => Except.ok ([], st.1, st.2)
  | ms :: rest, st =>
      match dupMembers nm i ms.members st with
      | Except.error e => Except.error e
      | Except.ok r =>
          match dupSets nm i rest
              (r.2.1, (MemberSet.create r.2.2 r.1 ms.classification ms.L_y ms.L_z none).2) with
          | Except.error e => Except.error e
          | Except.ok rs =>
              Except.ok
                ((MemberSet.create r.2.2 r.1 ms.classification ms.L_y ms.L_z none).1
                  :: rs.1, rs.2.1, rs.2.2)

/-- Second pass of `create_combined_model_pattern`: duplicate all member
sets for every copy index in order. -/
def dupCopies (nm : NodeMap) (sets : List MemberSet) :
    List ℕ → MMap × Counters →
    Except PatternError (List MemberSet × MMap × Counters)
  | [], st => Except.ok ([], st.1, st.2)
  | i :: rest, st =>
      match dupSets nm i sets st with
      | Except.error e => Except.error e
      | Except.ok r =>
          match dupCopies nm sets rest (r.2.1, r.2.2) with
          | Except.error e => Except.error e
          | Except.ok rs => Except.ok (r.1 ++ rs.1, rs.2.1, rs.2.2)

/-- Final rewiring pass: a duplicated member whose `reference_member` is
set gets it replaced by `member_mapping.get(original, [None])[0]` — the
first duplicate of the original referenced member, or silently None when
the original was never duplicated. -/
def rewireMember (mm : MMap) (mem : Member) : Member :=
  match mem.reference_member with
  | none => mem
  | some r => { mem with reference_member := (mmLookup mm r).bind List.head? }

/-- Apply the rewiring pass to every duplicated member set (the originals'
members are never in `member_mapping`, hence never rewired). -/
def rewireSets (mm : MMap) (sets : List MemberSet) : List MemberSet :=
  sets.map (fun s => { s with members := s.members.map (rewireMember mm) })

/-- fers.py `create_combined_model_pattern`: the combined model holds the
original member sets followed by `count - 1` translated copies, with
node duplication keyed by `(node id, copy index)`, member duplication
carrying hinges, classification, rotation angle and chi, and a final pass
rewiring each duplicated member's `reference_member`. -/
def create_combined_model_pattern (original_model : FERS) (count : ℕ)
    (sp : Vec3) (c : Counters) : Except PatternError (FERS × Counters) :=
  let built := buildNodeMapping original_model.get_all_nodes count sp c
  match dupCopies built.1 original_model.get_all_member_sets
      (List.range' 1 (count - 1)) ([], built.2) with
  | Except.error e => Except.error e
  | Except.ok r =>
      Except.ok (⟨original_model.member_sets ++ rewireSets r.2.1 r.1⟩, r.2.2)

/-- The KeyError raised by a failed `node_translation_map[id]` lookup. -/
inductive TranslateError where
  | missing_node (node_id : ℕ)
deriving DecidableEq

/-- The `node_translation_map` dictionary: original node id to translated
node. -/
abbrev NTMap : Type := List (ℕ × Node)

/-- Dictionary lookup in `node_translation_map`. -/
def ntmLookup (l : NTMap) (k : ℕ) : Option Node :=
  (l.find? (fun p => decide (p.1 = k))).map Prod.snd

/-- First loop of `translate_model`: for every unique node create a
translated node — passing only the three coordinates, so the nodal support
and classification are not carried over — keyed by the original's id. -/
def buildNTM (v : Vec3) : List Node → Counters → NTMap × Counters
  | [], c => ([], c)
  | n :: rest, c =>
      let p := Node.create c (n.X + v.1) (n.Y + v.2.1) (n.Z + v.2.2) none none
      let tail := buildNTM v rest p.2
      ((n.id, p.1) :: tail.1, tail.2)

/-- Member rebuild in `translate_model`: endpoints are looked up in the
id-keyed translation map; section, hinges and classification are carried
over, everything else defaults. -/
def rebuildMember (ntm : NTMap) (mem : Member) (c : Counters) :
    Except TranslateError (Member × Counters) :=
  match ntmLookup ntm mem.start_node.id with
  | none => Except.error (TranslateError.missing_node mem.start_node.id)
  | some ns =>
      match ntmLookup ntm mem.end_node.id with
      | none => Except.error (TranslateError.missing_node mem.end_node.id)
      | some ne =>
          Except.ok (Member.create c ns ne mem.section_id mem.start_hinge
            mem.end_hinge mem.classification none none none none)

/-- Rebuild every member of one member set in `translate_model`. -/
def rebuildMembers (ntm : NTMap) :
    List Member → Counters → Except TranslateError (List Member × Counters)
  | [], c => Except.ok ([], c)
  | mem :: rest, c =>
      match rebuildMember ntm mem c with
      | Except.error e => Except.error e
      | Except.ok r =>
          match rebuildMembers ntm rest r.2 with
          | Except.error e => Except.error e
          | Except.ok rs => Except.ok (r.1 :: rs.1, rs.2)

/-- Rebuild every member set in `translate_model`: the new set is created
from the rebuilt members, the classification and the original's
member_set_id only — the buckling lengths `L_y`, `L_z` are not passed and
so revert to their defaults. -/
def rebuildSets (ntm : NTMap) :
    List MemberSet → Counters →
    Except TranslateError (List MemberSet × Counters)
  | [], c => Except.ok ([], c)
  | ms :: rest, c =>
      match rebuildMembers ntm ms.members c with
      | Except.error e => Except.error e
      | Except.ok r =>
          match rebuildSets ntm rest
              (MemberSet.create r.2 r.1 ms.classification none none (some ms.id)).2 with
          | Except.error e => Except.error e
          | Except.ok rs =>
              Except.ok
                ((MemberSet.create r.2 r.1 ms.classification none none (some ms.id)).1
                  :: rs.1, rs.2)

/-- fers.py `translate_model`: translate every unique node (id-keyed map),
then rebuild every member set with looked-up endpoints. -/
def translate_model (model : FERS) (v : Vec3) (c : Counters) :
    Except TranslateError (FERS × Counters) :=
  let built := buildNTM v model.get_all_nodes c
  match rebuildSets built.1 model.member_sets built.2 with
  | Except.error e => Except.error e
  | Except.ok r => Except.ok (⟨r.1⟩, r.2)

/-- deformation_utils.py: `np.linspace(0, 1, n)`. -/
def linspace01 (n : ℕ) : List ℚ :=
  match n with
  | 0 => []
  | 1 => [0]
  | _ => (List.range n).map (fun k : ℕ => (k : ℚ) / ((n : ℚ) - 1))

/-- deformation_utils.py `interpolate_beam_local`: linear interpolation of
the local-x displacements and cubic Hermite interpolation of the local-y
and local-z displacements, with end slopes `L * rz` and `-L * ry`
respectively, sampled at `n_points` parameters `t` in `[0, 1]`. -/
def interpolate_beam_local (xstart xend : ℚ)
    (local_disp_start local_disp_end local_rot_start local_rot_end : Vec3)
    (n_points : ℕ) : List Vec3 :=
  let L := xend - xstart
  let uxs := local_disp_start.1
  let uys := local_disp_start.2.1
  let uzs := local_disp_start.2.2
  let uxe := local_disp_end.1
  let uye := local_disp_end.2.1
  let uze := local_disp_end.2.2
  let rys := local_rot_start.2.1
  let rzs := local_rot_start.2.2
  let rye := local_rot_end.2.1
  let rze := local_rot_end.2.2
  let slope_y0 := L * rzs
  let slope_y1 := L * rze
  let slope_z0 := -L * rys
  let slope_z1 := -L * rye
  (linspace01 n_points).map (fun t =>
    let h1 := 2 * t ^ 3 - 3 * t ^ 2 + 1
    let h2 := -2 * t ^ 3 + 3 * t ^ 2
    let h3 := t ^ 3 - 2 * t ^ 2 + t
    let h4 := t ^ 3 - t ^ 2
    (uxs + (uxe - uxs) * t,
     uys * h1 + uye * h2 + slope_y0 * h3 + slope_y1 * h4,
     uzs * h1 + uze * h2 + slope_z0 * h3 + slope_z1 * h4))

/-- Modelled from the spec: the Python re module (an external collaborator)
as an abstract engine whose `compile` either fails with a
pattern-compilation error or yields a search predicate. -/
structure RegexEngine where
  compile : String → Except String (String → Bool)

/-- An ASCII word character, the characters matched by the regex class
used in `get_membersets_by_classification`. -/
def isWordChar (ch : Char) : Bool :=
  ch.isAlphanum || ch == '_'

/-- Modelled from the spec: the test `re.match` of the word-token anchor
pattern against the filter — true exactly when the filter is a nonempty
pure word-character token. -/
def isWordToken (s : String) : Bool :=
  !s.toList.isEmpty && s.toList.all isWordChar

/-- Needle-at-head check for the substring test. -/
def beginsWith : List Char → List Char → Bool
  | _, [] => true
  | [], _ :: _ => false
  | x :: xs, y :: ys => x == y && beginsWith xs ys

/-- Python's `needle in haystack` on strings: substring containment. -/
def hasSubstrAux : List Char → List Char → Bool
  | [], n => beginsWith [] n
  | x :: xs, n => beginsWith (x :: xs) n || hasSubstrAux xs n

/-- Substring containment on strings. -/
def hasSubstr (haystack needle : String) : Bool :=
  hasSubstrAux haystack.toList needle.toList

/-- fers.py `get_membersets_by_classification`: a pure word-character
filter selects member sets by substring containment; any other filter is
compiled as a regular expression (a compilation error propagates to the
caller) and applied with search semantics. -/
def get_membersets_by_classification (eng : RegexEngine) (m : FERS)
    (classification_pattern : String) : Except String (List MemberSet) :=
  if isWordToken classification_pattern then
    Except.ok (m.member_sets.filter
      (fun ms => hasSubstr ms.classification classification_pattern))
  else
    match eng.compile classification_pattern with
    | Except.error e => Except.error e
    | Except.ok f =>
        Except.ok (m.member_sets.filter (fun ms => f ms.classification))

/-- First-occurrence subsequence of a list: keep each element whose key has
not occurred earlier.  This is the order-theoretic specification that the
enumeration loops are proved to implement. -/
def keepFirst {α : Type} (key : α → ℕ) : List α → List α
  | [] => []
  | x :: xs => x :: keepFirst key (xs.filter (fun y => decide (key y ≠ key x)))
termination_by l => l.length
decreasing_by
  simp only [List.length_cons]
  exact Nat.lt_succ_of_le (List.length_filter_le _ _)

/-- The member stored at set index `i`, member index `j` of a model. -/
def memAt (m : FERS) (i j : ℕ) : Option Member :=
  (m.member_sets[i]?).bind (fun s => s.members[j]?)

/- Concrete input models used by the evaluation theorems and witnesses. -/

def exN0 : Node := ⟨0, 0, 0, 0, none, none⟩

def exN1 : Node := ⟨1, 1, 0, 0, none, none⟩

def exN2 : Node := ⟨2, 2, 0, 0, none, none⟩

/-- Member 0, from exN0 to exN1, no references. -/
def exMemA : Member := ⟨0, exN0, exN1, 0, none, none, "", none, none, none, none⟩

/-- Member 1, from exN1 to exN2, referencing member 0. -/
def exMemB : Member := ⟨1, exN1, exN2, 0, none, none, "", none, none, some 0, none⟩

/-- A two-member chain in one member set, member 1 referencing member 0. -/
def exRefModel : FERS := ⟨[⟨0, [exMemA, exMemB], "", none, none⟩]⟩

/-- Member 1 variant whose reference_member id 99 names no member of the
model. -/
def exMemB99 : Member := ⟨1, exN1, exN2, 0, none, none, "", none, none, some 99, none⟩

/-- A model containing a member whose reference_member is dangling. -/
def exDanglingRefMemberModel : FERS := ⟨[⟨0, [exMemA, exMemB99], "", none, none⟩]⟩

/-- A second node object at the same coordinates as exN0. -/
def exN2b : Node := ⟨2, 0, 0, 0, none, none⟩

def exN3 : Node := ⟨3, 2, 0, 0, none, none⟩

def exMemC : Member := ⟨0, exN0, exN1, 0, none, none, "", none, none, none, none⟩

def exMemD : Member := ⟨1, exN2b, exN3, 0, none, none, "", none, none, none, none⟩

/-- A model with two distinct source nodes (ids 0 and 2) at identical
coordinates. -/
def exCoincidentModel : FERS := ⟨[⟨0, [exMemC, exMemD], "", none, none⟩]⟩

/-- A node not appearing as any member endpoint, used as a dangling
reference_node. -/
def exOrphanNode : Node := ⟨9, 5, 5, 5, none, none⟩

/-- Member 0 variant whose reference_node is the orphan node. -/
def exMemRefNode : Member :=
  ⟨0, exN0, exN1, 0, none, none, "", none, none, none, some exOrphanNode⟩

/-- A model containing a member whose reference_node was never part of the
node walk. -/
def exDanglingRefNodeModel : FERS := ⟨[⟨0, [exMemRefNode], "", none, none⟩]⟩

/-- A node carrying a nodal support and a classification tag. -/
def exSupN0 : Node := ⟨0, 0, 0, 0, some 7, some "sup"⟩

def exSupMem : Member := ⟨0, exSupN0, exN1, 0, none, none, "", none, none, none, none⟩

/-- A model whose first node carries a nodal support and classification,
with group-level buckling lengths on its member set. -/
def exSupportModel : FERS := ⟨[⟨0, [exSupMem], "frame", some 4, some 6⟩]⟩

/-- The nodes of the combined model built from the coincident-node model
(empty list in the unreachable error case). -/
def exC3nodes : List Node :=
  match create_combined_model_pattern exCoincidentModel 2 (10, 0, 0) ⟨4, 2, 1⟩ with
  | Except.ok r => r.1.get_all_nodes
  | Except.error _ => []

/-- Boolean success test for an embedded fallible operation. -/
def isOkE {ε α : Type} : Except ε α → Bool
  | Except.ok _ => true
  | Except.error _ => false

/-- All three `node_mapping` lookups performed when duplicating one member
for copy index `i` succeed. -/
def memberResolvable (nm : NodeMap) (i : ℕ) (mem : Member) : Bool :=
  (nmLookup nm (NMKey.idCopy mem.start_node.id i)).isSome &&
  (nmLookup nm (NMKey.idCopy mem.end_node.id i)).isSome &&
  (match mem.reference_node with
   | none => true
   | some rn => (nmLookup nm (NMKey.idCopy rn.id i)).isSome)

/-- A rebuilt member's endpoints are exactly the translation-map images of
the source member's endpoint ids. -/
def memberCorresponds (ntm : NTMap) (mem mem' : Member) : Prop :=
  ntmLookup ntm mem.start_node.id = some mem'.start_node ∧
  ntmLookup ntm mem.end_node.id = some mem'.end_node

/-- A rebuilt member set keeps classification and id and rebuilds its
members through the id-keyed translation map. -/
def setCorresponds (ntm : NTMap) (ms ms' : MemberSet) : Prop :=
  ms'.classification = ms.classification ∧ ms'.id = ms.id ∧
  List.Forall₂ (memberCorresponds ntm) ms.members ms'.members

/-- A regex engine that rejects every pattern, for exercising the
error-propagation branch. -/
def exBadEngine : RegexEngine := ⟨fun _ => Except.error "unbalanced bracket"⟩

/-- A regex engine whose compiled pattern matches exactly the
classification "beam". -/
def exOkEngine : RegexEngine := ⟨fun _ => Except.ok (fun s => s == "beam")⟩

def exSetCol : MemberSet := ⟨0, [], "main_column", none, none⟩

def exSetBeam : MemberSet := ⟨1, [], "beam", none, none⟩

/-- A two-set model with classifications "main_column" and "beam". -/
def exClsModel : FERS := ⟨[exSetCol, exSetBeam]⟩

/-- The result of translating the support-carrying model (junk value in
the unreachable error case). -/
def exC9translateRun : FERS × Counters :=
  match translate_model exSupportModel (1, 0, 0) ⟨2, 1, 1⟩ with
  | Except.ok r => r
  | Except.error _ => (⟨[]⟩, ⟨0, 0, 0⟩)

/-- The result of replicating the support-carrying model with count 2
(junk value in the unreachable error case). -/
def exC9patternRun : FERS × Counters :=
  match create_combined_model_pattern exSupportModel 2 (10, 0, 0) ⟨2, 1, 1⟩ with
  | Except.ok r => r
  | Except.error _ => (⟨[]⟩, ⟨0, 0, 0⟩)

/-- The result of translating the two-member chained model (junk value in
the unreachable error case). -/
def exC4translateRun : FERS × Counters :=
  match translate_model exRefModel (1, 0, 0) ⟨3, 2, 1⟩ with
  | Except.ok r => r
  | Except.error _ => (⟨[]⟩, ⟨0, 0, 0⟩)

/-- C1: the claim fails on the code.  Replicating a two-member model
(member 1 references member 0) with count = 3 yields duplicates
2, 3 (copy 1) and 4, 5 (copy 2); the rewiring pass takes the first
duplicate of the referenced member for every copy, so the copy-2
duplicate 5 ends with reference_member = some 2 — member 0's copy-1
duplicate — instead of its copy-2 duplicate 4. -/
theorem C1_reference_member_crosses_copies :
    (create_combined_model_pattern exRefModel 3 (10, 0, 0) ⟨3, 2, 1⟩).map
        (fun r => r.1.member_sets.map
          (fun s => s.members.map (fun mem => (mem.id, mem.reference_member))))
      = Except.ok
          [[(0, none), (1, some 0)],
           [(2, none), (3, some 2)],
           [(4, none), (5, some 2)]] := by
  decide

/-- C2 counterexample: the model's only members have ids 0 and 1, yet
member 1's reference_member is 99 — a reference whose source is not part
of the replicated set.  Replication succeeds (no error is raised) and the
duplicate member 3 has its reference_member silently set to none,
contradicting the claimed fail-fast behaviour. -/
theorem C2_dangling_reference_member_silently_nulled :
    (exDanglingRefMemberModel.get_all_members.map
        (fun mem => (mem.id, mem.reference_member)) = [(0, none), (1, some 99)]) ∧
    (create_combined_model_pattern exDanglingRefMemberModel 2 (10, 0, 0) ⟨3, 2, 1⟩).map
        (fun r => r.1.member_sets.map
          (fun s => s.members.map (fun mem => (mem.id, mem.reference_member))))
      = Except.ok [[(0, none), (1, some 99)], [(2, none), (3, none)]] := by
  constructor
  · decide
  · decide

/-- C3: the claim fails on the code (the coordinate-membership test
compares a coordinate triple against (id, copy)-keyed entries and never
fires).  Source nodes 0 and 2 both sit at (0, 0, 0); the single copy pass
i = 1 duplicates the four source nodes into the four fresh nodes
4, 5, 6, 7, and the two distinct new nodes 4 and 6 (positions 4 and 6 of
the enumeration) have identical X, Y and Z coordinates instead of being
collapsed into one new node. -/
theorem C3_coincident_nodes_not_collapsed :
    exC3nodes.map Node.id = [0, 1, 2, 3, 4, 5, 6, 7] ∧
    (exC3nodes.map Node.X)[4]? = (exC3nodes.map Node.X)[6]? ∧
    (exC3nodes.map Node.Y)[4]? = (exC3nodes.map Node.Y)[6]? ∧
    (exC3nodes.map Node.Z)[4]? = (exC3nodes.map Node.Z)[6]? :=
  ⟨by decide, rfl, rfl, rfl⟩

/-- C4 counterexample: source node 0 carries nodal support 7 and
classification "sup", but both translated nodes come out with no nodal
support and no classification, refuting the claimed preservation. -/
theorem C4_translate_drops_support_and_classification :
    (exSupportModel.get_all_nodes.map
        (fun n => (n.id, n.nodal_support, n.classification))
      = [(0, some 7, some "sup"), (1, none, none)]) ∧
    (translate_model exSupportModel (1, 0, 0) ⟨2, 1, 1⟩).map
        (fun r => r.1.get_all_nodes.map
          (fun n => (n.id, n.nodal_support, n.classification)))
      = Except.ok [(2, none, none), (3, none, none)] := by
  constructor
  · decide
  · decide

/-- C6: with count = 1 the replication loops are empty, so the combined
model holds exactly the original member sets and the identity counters are
untouched — no member set, node or member is created. -/
theorem C6_count_one_identity (model : FERS) (sp : Vec3) (c : Counters) :
    create_combined_model_pattern model 1 sp c
      = Except.ok (⟨model.member_sets⟩, c) := by
  simp [create_combined_model_pattern, buildNodeMapping, dupCopies, rewireSets,
    FERS.get_all_member_sets]

/-- No element collected by the enumeration loop has a key that was
already in the seen set when the loop started. -/
theorem firstSeenAux_not_mem_seen {α : Type} (key : α → ℕ) :
    ∀ (l : List α) (seen : List ℕ) (a : α),
      a ∈ firstSeenAux key l seen → key a ∉ seen
  | [], _, _, ha => by simp [firstSeenAux] at ha
  | x :: xs, seen, a, ha => by
      by_cases h : key x ∈ seen
      · rw [firstSeenAux, if_pos h] at ha
        exact firstSeenAux_not_mem_seen key xs seen a ha
      · rw [firstSeenAux, if_neg h] at ha
        rcases List.mem_cons.mp ha with rfl | ha'
        · exact h
        · have := firstSeenAux_not_mem_seen key xs (key x :: seen) a ha'
          exact fun hc => this (List.mem_cons_of_mem _ hc)

/-- The keys of the elements collected by the enumeration loop are
pairwise distinct. -/
theorem firstSeenAux_keys_nodup {α : Type} (key : α → ℕ) :
    ∀ (l : List α) (seen : List ℕ),
      ((firstSeenAux key l seen).map key).Nodup
  | [], _ => by simp [firstSeenAux]
  | x :: xs, seen => by
      by_cases h : key x ∈ seen
      · rw [firstSeenAux, if_pos h]
        exact firstSeenAux_keys_nodup key xs seen
      · rw [firstSeenAux, if_neg h]
        refine List.nodup_cons.mpr ⟨?_, firstSeenAux_keys_nodup key xs (key x :: seen)⟩
        intro hmem
        rcases List.mem_map.mp hmem with ⟨a, ha, hka⟩
        exact firstSeenAux_not_mem_seen key xs (key x :: seen) a ha
          (hka ▸ List.mem_cons_self _ _)

/-- Every walked element's key is accounted for: it is either already in
the seen set or among the collected keys. -/
theorem firstSeenAux_covers {α : Type} (key : α → ℕ) :
    ∀ (l : List α) (seen : List ℕ) (a : α), a ∈ l →
      key a ∈ seen ∨ key a ∈ (firstSeenAux key l seen).map key
  | x :: xs, seen, a, ha => by
      rcases List.mem_cons.mp ha with rfl | ha'
      · by_cases h : key a ∈ seen
        · exact Or.inl h
        · rw [firstSeenAux, if_neg h]
          exact Or.inr (by simp)
      · by_cases h : key x ∈ seen
        · rw [firstSeenAux, if_pos h]
          exact firstSeenAux_covers key xs seen a ha'
        · rw [firstSeenAux, if_neg h]
          rcases firstSeenAux_covers key xs (key x :: seen) a ha' with hin | hin
          · rcases List.mem_cons.mp hin with heq | hin'
            · exact Or.inr (by simp [heq])
            · exact Or.inl hin'
          · exact Or.inr (List.mem_cons_of_mem _ hin)

/-- The enumeration loop computes exactly the first-occurrence subsequence
of the walk restricted to unseen keys. -/
theorem firstSeenAux_eq_keepFirst {α : Type} (key : α → ℕ) :
    ∀ (l : List α) (seen : List ℕ),
      firstSeenAux key l seen
        = keepFirst key (l.filter (fun y => decide (key y ∉ seen)))
  | [], seen => by simp [firstSeenAux, keepFirst]
  | x :: xs, seen => by
      by_cases h : key x ∈ seen
      · rw [firstSeenAux, if_pos h, List.filter_cons_of_neg (by simp [h])]
        exact firstSeenAux_eq_keepFirst key xs seen
      · rw [firstSeenAux, if_neg h, List.filter_cons_of_pos (by simp [h]),
          keepFirst, List.filter_filter,
          firstSeenAux_eq_keepFirst key xs (key x :: seen)]
        have hfil : xs.filter (fun y => decide (key y ∉ key x :: seen))
            = xs.filter (fun a => decide (key a ≠ key x) && decide (key a ∉ seen)) :=
          List.filter_congr (fun y _ => by
            by_cases h1 : key y = key x <;> by_cases h2 : key y ∈ seen <;>
              simp [h1, h2, List.mem_cons])
        rw [hfil]

/-- Filtering by an unseen-key test against the empty seen set keeps
everything. -/
theorem filter_not_mem_nil {α : Type} (key : α → ℕ) (l : List α) :
    l.filter (fun y => decide (key y ∉ ([] : List ℕ))) = l :=
  List.filter_eq_self.mpr (fun a _ => by simp)

/-- C7: both enumerations return each id at most once (their id lists are
duplicate-free) and compute exactly the first-occurrence subsequence of
the walk over member sets and their members, so the returned order is
first-seen order of that walk. -/
theorem C7_enumeration_dedup_first_seen (m : FERS) :
    m.get_all_members = keepFirst Member.id m.memberWalk ∧
    (m.get_all_members.map Member.id).Nodup ∧
    m.get_all_nodes = keepFirst Node.id m.nodeWalk ∧
    (m.get_all_nodes.map Node.id).Nodup := by
  refine ⟨?_, firstSeenAux_keys_nodup _ _ _, ?_, firstSeenAux_keys_nodup _ _ _⟩
  · rw [FERS.get_all_members, firstSeenAux_eq_keepFirst, filter_not_mem_nil]
  · rw [FERS.get_all_nodes, firstSeenAux_eq_keepFirst, filter_not_mem_nil]

/-- Shape of the member list produced by the translate_member_set loop:
one translated member per source member, whose fresh endpoint nodes carry
the consecutive ids `base + 2j` (start) and `base + 2j + 1` (end). -/
theorem translate_member_set_members_ids (v : Vec3) :
    ∀ (l : List Member) (c : Counters),
      (translate_member_set_members v l c).1.length = l.length ∧
      ∀ (j : ℕ) (mem' : Member),
        (translate_member_set_members v l c).1[j]? = some mem' →
        mem'.start_node.id = c.node_id + 2 * j ∧
        mem'.end_node.id = c.node_id + 2 * j + 1
  | [], c => by simp [translate_member_set_members]
  | mem :: rest, c => by
      have ih := translate_member_set_members_ids v rest
        ⟨c.node_id + 2, c.member_id + 1, c.member_set_id⟩
      constructor
      · simpa [translate_member_set_members, Node.create, Member.create]
          using ih.1
      · intro j mem' hj
        cases j with
        | zero =>
            simp [translate_member_set_members, Node.create, Member.create] at hj
            subst hj
            constructor <;> rfl
        | succ j' =>
            simp only [translate_member_set_members, Node.create, Member.create,
              List.getElem?_cons_succ] at hj
            have h2 := ih.2 j' mem' hj
            refine ⟨?_, ?_⟩ <;> simp at h2 ⊢ <;> omega

/-- C10: translate_member_set creates a fresh pair of endpoint nodes for
every member independently, so even when source member j's end node is the
very same node as source member k's start node, the translated
counterparts at positions j and k hold distinct Node objects with distinct
ids. -/
theorem C10_translate_member_set_fresh_endpoints
    (ms : MemberSet) (v : Vec3) (c : Counters) (j k : ℕ) (smj smk : Member)
    (hj : ms.members[j]? = some smj) (hk : ms.members[k]? = some smk)
    (hshare : smj.end_node = smk.start_node) :
    ∃ tmj tmk : Member,
      (translate_member_set ms v c).1.members[j]? = some tmj ∧
      (translate_member_set ms v c).1.members[k]? = some tmk ∧
      tmj.end_node.id ≠ tmk.start_node.id ∧
      tmj.end_node ≠ tmk.start_node := by
  have hspec := translate_member_set_members_ids v ms.members c
  have hmembers : (translate_member_set ms v c).1.members
      = (translate_member_set_members v ms.members c).1 := by
    simp [translate_member_set, MemberSet.create]
  have hjlt : j < ms.members.length := by
    by_contra hge
    rw [List.getElem?_eq_none (Nat.le_of_not_lt hge)] at hj
    exact Option.noConfusion hj
  have hklt : k < ms.members.length := by
    by_contra hge
    rw [List.getElem?_eq_none (Nat.le_of_not_lt hge)] at hk
    exact Option.noConfusion hk
  have hjlt' : j < (translate_member_set_members v ms.members c).1.length := by
    rw [hspec.1]; exact hjlt
  have hklt' : k < (translate_member_set_members v ms.members c).1.length := by
    rw [hspec.1]; exact hklt
  have htj : (translate_member_set_members v ms.members c).1[j]?
      = some ((translate_member_set_members v ms.members c).1.get ⟨j, hjlt'⟩) := by
    simp [List.getElem?_eq_getElem hjlt']
  have htk : (translate_member_set_members v ms.members c).1[k]?
      = some ((translate_member_set_members v ms.members c).1.get ⟨k, hklt'⟩) := by
    simp [List.getElem?_eq_getElem hklt']
  have idj := hspec.2 j _ htj
  have idk := hspec.2 k _ htk
  have hne : ((translate_member_set_members v ms.members c).1.get ⟨j, hjlt'⟩).end_node.id
      ≠ ((translate_member_set_members v ms.members c).1.get ⟨k, hklt'⟩).start_node.id := by
    rw [idj.2, idk.1]; omega
  exact ⟨_, _, by rw [hmembers]; exact htj, by rw [hmembers]; exact htk, hne,
    fun hc => hne (congrArg Node.id hc)⟩

/-- C5: interpolate_beam_local returns n_points samples; the k-th sample
sits at parameter t = k/(n-1) (uniform spacing over [0, 1]); local-x is the
linear interpolation of the end x-displacements; local-y and local-z are
the cubic Hermite combinations with end slopes L·rz and −L·ry
respectively, with h1 = 2t³−3t²+1, h2 = −2t³+3t², h3 = t³−2t²+t,
h4 = t³−t². -/
theorem C5_interpolate_beam_local_formula
    (xstart xend uxs uys uzs uxe uye uze rxs rys rzs rxe rye rze : ℚ)
    (n k : ℕ) (hn : 2 ≤ n) (hk : k < n) :
    (interpolate_beam_local xstart xend (uxs, uys, uzs) (uxe, uye, uze)
        (rxs, rys, rzs) (rxe, rye, rze) n).length = n ∧
    (interpolate_beam_local xstart xend (uxs, uys, uzs) (uxe, uye, uze)
        (rxs, rys, rzs) (rxe, rye, rze) n)[k]? =
      some (
        let t : ℚ := (k : ℚ) / ((n : ℚ) - 1)
        let L : ℚ := xend - xstart
        let h1 : ℚ := 2 * t ^ 3 - 3 * t ^ 2 + 1
        let h2 : ℚ := -2 * t ^ 3 + 3 * t ^ 2
        let h3 : ℚ := t ^ 3 - 2 * t ^ 2 + t
        let h4 : ℚ := t ^ 3 - t ^ 2
        (uxs + (uxe - uxs) * t,
         uys * h1 + uye * h2 + (L * rzs) * h3 + (L * rze) * h4,
         uzs * h1 + uze * h2 + (-L * rys) * h3 + (-L * rye) * h4)) := by
  obtain ⟨m, rfl⟩ : ∃ m, n = m + 2 := ⟨n - 2, by omega⟩
  have hl : linspace01 (m + 2)
      = (List.range (m + 2)).map
          (fun j : ℕ => (j : ℚ) / (((m + 2 : ℕ) : ℚ) - 1)) := rfl
  refine ⟨?_, ?_⟩
  · simp only [interpolate_beam_local, hl, List.length_map, List.length_range]
  · simp only [interpolate_beam_local, hl, List.getElem?_map,
      List.getElem?_range hk, Option.map_some]
    rfl

/-- C5 witness: the theorem applied at a concrete beam with n = 3 samples
and sample index k = 1. -/
theorem C5_interpolate_beam_local_witness :
    2 ≤ 3 ∧ 1 < 3 ∧
    ((interpolate_beam_local 0 2 (1, 2, 3) (4, 5, 6) (0, 1, 2) (3, 4, 5)
        3).length = 3 ∧
     (interpolate_beam_local 0 2 (1, 2, 3) (4, 5, 6) (0, 1, 2) (3, 4, 5)
        3)[1]? =
      some (
        let t : ℚ := ((1 : ℕ) : ℚ) / (((3 : ℕ) : ℚ) - 1)
        let L : ℚ := 2 - 0
        let h1 : ℚ := 2 * t ^ 3 - 3 * t ^ 2 + 1
        let h2 : ℚ := -2 * t ^ 3 + 3 * t ^ 2
        let h3 : ℚ := t ^ 3 - 2 * t ^ 2 + t
        let h4 : ℚ := t ^ 3 - t ^ 2
        (1 + (4 - 1) * t,
         2 * h1 + 5 * h2 + (L * 2) * h3 + (L * 5) * h4,
         3 * h1 + 6 * h2 + (-L * 1) * h3 + (-L * 4) * h4))) :=
  ⟨by decide, by decide,
   C5_interpolate_beam_local_formula 0 2 1 2 3 4 5 6 0 1 2 3 4 5 3 1
     (by decide) (by decide)⟩

/-- C8: a pure word-character filter selects by substring containment; any
other filter goes through the engine's compile — a compilation error is
propagated to the caller unchanged, and a compiled pattern is applied with
search semantics to each member set's classification. -/
theorem C8_classification_lookup_branches (eng : RegexEngine) (m : FERS)
    (p : String) :
    (isWordToken p = true →
      get_membersets_by_classification eng m p
        = Except.ok (m.member_sets.filter
            (fun ms => hasSubstr ms.classification p))) ∧
    (isWordToken p = false → ∀ e, eng.compile p = Except.error e →
      get_membersets_by_classification eng m p = Except.error e) ∧
    (isWordToken p = false → ∀ f, eng.compile p = Except.ok f →
      get_membersets_by_classification eng m p
        = Except.ok (m.member_sets.filter (fun ms => f ms.classification))) := by
  refine ⟨fun h => ?_, fun h e he => ?_, fun h f hf => ?_⟩
  · simp [get_membersets_by_classification, h]
  · simp [get_membersets_by_classification, h, he]
  · simp [get_membersets_by_classification, h, hf]

/-- C8 witness: a non-word-token filter with a failing engine propagates
the compilation error; a word-token filter selects by substring without
consulting the engine; a non-word-token filter with a successful compile
filters by the compiled predicate. -/
theorem C8_classification_lookup_witness :
    isWordToken "a[" = false ∧
    isWordToken "column" = true ∧
    exBadEngine.compile "a[" = Except.error "unbalanced bracket" ∧
    exOkEngine.compile "a[" = Except.ok (fun s => s == "beam") ∧
    get_membersets_by_classification exBadEngine exClsModel "a["
      = Except.error "unbalanced bracket" ∧
    get_membersets_by_classification exBadEngine exClsModel "column"
      = Except.ok [exSetCol] ∧
    get_membersets_by_classification exOkEngine exClsModel "a["
      = Except.ok [exSetBeam] := by
  refine ⟨by decide, by decide, rfl, rfl, ?_, ?_, ?_⟩
  · exact (C8_classification_lookup_branches exBadEngine exClsModel
      "a[").2.1 (by decide) _ rfl
  · exact ((C8_classification_lookup_branches exBadEngine exClsModel
      "column").1 (by decide)).trans (by decide)
  · exact ((C8_classification_lookup_branches exOkEngine exClsModel
      "a[").2.2 (by decide) _ rfl).trans (by decide)

/-- C10 witness: the theorem applied to a concrete two-member chained set
whose members share their middle node. -/
theorem C10_translate_member_set_witness :
    (⟨0, [exMemA, exMemB], "", none, none⟩ : MemberSet).members[0]?
      = some exMemA ∧
    (⟨0, [exMemA, exMemB], "", none, none⟩ : MemberSet).members[1]?
      = some exMemB ∧
    exMemA.end_node = exMemB.start_node ∧
    (∃ tmj tmk : Member,
      (translate_member_set ⟨0, [exMemA, exMemB], "", none, none⟩ (1, 0, 0)
          ⟨3, 2, 1⟩).1.members[0]? = some tmj ∧
      (translate_member_set ⟨0, [exMemA, exMemB], "", none, none⟩ (1, 0, 0)
          ⟨3, 2, 1⟩).1.members[1]? = some tmk ∧
      tmj.end_node.id ≠ tmk.start_node.id ∧
      tmj.end_node ≠ tmk.start_node) :=
  ⟨rfl, rfl, rfl,
   C10_translate_member_set_fresh_endpoints ⟨0, [exMemA, exMemB], "", none, none⟩
     (1, 0, 0) ⟨3, 2, 1⟩ 0 1 exMemA exMemB rfl rfl rfl⟩

/-- Every entry the node-duplication loop adds to `node_mapping` is keyed
by `(id, i)` for some node of the processed list. -/
theorem copyNodes_mem (i : ℕ) (tt : Vec3) :
    ∀ (l : List Node) (st : NodeMap × Counters) (p : NMKey × Node),
      p ∈ (copyNodes i tt l st).1 →
      p ∈ st.1 ∨ ∃ n, n ∈ l ∧ p.1 = NMKey.idCopy n.id i
  | [], _, p, hp => Or.inl hp
  | n :: rest, st, p, hp => by
      obtain ⟨nm, c⟩ := st
      rw [copyNodes] at hp
      by_cases h : (nmLookup nm
          (NMKey.coords (n.X + tt.1) (n.Y + tt.2.1) (n.Z + tt.2.2))).isSome
      · rw [if_pos h] at hp
        rcases copyNodes_mem i tt rest (nm, c) p hp with h' | ⟨n', hn', hk⟩
        · exact Or.inl h'
        · exact Or.inr ⟨n', List.mem_cons_of_mem _ hn', hk⟩
      · rw [if_neg h] at hp
        rcases copyNodes_mem i tt rest _ p hp with h' | ⟨n', hn', hk⟩
        · rcases List.mem_append.mp h' with h'' | h''
          · exact Or.inl h''
          · rcases List.mem_singleton.mp h'' with rfl
            exact Or.inr ⟨n, List.mem_cons_self _ _, rfl⟩
        · exact Or.inr ⟨n', List.mem_cons_of_mem _ hn', hk⟩

/-- Every entry of the full `node_mapping` is keyed by `(id, j)` for some
node of the walked list and some copy index. -/
theorem buildNodeMapping_mem (nodes : List Node) (sp : Vec3) :
    ∀ (is : List ℕ) (st : NodeMap × Counters) (p : NMKey × Node),
      p ∈ ((is.foldl (fun st i =>
          copyNodes i (sp.1 * (i : ℚ), sp.2.1 * (i : ℚ), sp.2.2 * (i : ℚ))
            nodes st) st).1) →
      p ∈ st.1 ∨ ∃ n, n ∈ nodes ∧ ∃ j, p.1 = NMKey.idCopy n.id j
  | [], _, _, hp => Or.inl hp
  | i :: rest, st, p, hp => by
      rw [List.foldl_cons] at hp
      rcases buildNodeMapping_mem nodes sp rest _ p hp with h' | h'
      · rcases copyNodes_mem i _ nodes st p h' with h'' | ⟨n, hn, hk⟩
        · exact Or.inl h''
        · exact Or.inr ⟨n, hn, i, hk⟩
      · exact Or.inr h'

/-- A `node_mapping` lookup for a node id that never occurs among the
walked nodes finds nothing. -/
theorem nmLookup_none_of_not_mem (nodes : List Node) (count : ℕ) (sp : Vec3)
    (c : Counters) (rid j : ℕ) (h : rid ∉ nodes.map Node.id) :
    nmLookup (buildNodeMapping nodes count sp c).1 (NMKey.idCopy rid j) = none := by
  rw [nmLookup]
  cases hf : (buildNodeMapping nodes count sp c).1.find?
      (fun p => decide (p.1 = NMKey.idCopy rid j)) with
  | none => rfl
  | some q =>
      have hpm := List.mem_of_find?_eq_some hf
      have hq := List.find?_some hf
      have hpk : q.1 = NMKey.idCopy rid j := of_decide_eq_true hq
      rcases buildNodeMapping_mem nodes sp (List.range' 1 (count - 1)) ([], c) q
          (by exact hpm) with habs | ⟨n, hn, j', hk⟩
      · exact absurd habs (List.not_mem_nil _)
      · have hkk : NMKey.idCopy rid j = NMKey.idCopy n.id j' := hpk.symm.trans hk
        injection hkk with h1 h2
        exact absurd (h1 ▸ List.mem_map_of_mem Node.id hn) h

/-- Duplicating a member whose reference node has no `node_mapping` entry
for the copy index fails, whatever the member-mapping state. -/
theorem dupMember_error_of_ref (nm : NodeMap) (i : ℕ) (mem : Member) (rn : Node)
    (href : mem.reference_node = some rn)
    (hnone : nmLookup nm (NMKey.idCopy rn.id i) = none) :
    ∀ (mm : MMap) (c : Counters), ∃ e, dupMember nm i mem mm c = Except.error e := by
  intro mm c
  have hE : nmLookupE nm rn.id i
      = Except.error (PatternError.missing_node rn.id i) := by
    rw [nmLookupE, hnone]
  rw [dupMember]
  cases h1 : nmLookupE nm mem.start_node.id i with
  | error e => exact ⟨e, rfl⟩
  | ok ns =>
      cases h2 : nmLookupE nm mem.end_node.id i with
      | error e => exact ⟨e, rfl⟩
      | ok ne =>
          rw [href, resolveRefNode, hE]
          exact ⟨PatternError.missing_node rn.id i, rfl⟩

/-- A failing member makes the whole member-duplication loop of its set
fail. -/
theorem dupMembers_error (nm : NodeMap) (i : ℕ) (mem : Member)
    (hbad : ∀ (mm : MMap) (c : Counters),
      ∃ e, dupMember nm i mem mm c = Except.error e) :
    ∀ (l : List Member), mem ∈ l → ∀ (st : MMap × Counters),
      ∃ e, dupMembers nm i l st = Except.error e
  | [], hmem, _ => absurd hmem (List.not_mem_nil _)
  | x :: xs, hmem, st => by
      rw [dupMembers]
      cases hd : dupMember nm i x st.1 st.2 with
      | error e => exact ⟨e, rfl⟩
      | ok r =>
          rcases List.mem_cons.mp hmem with rfl | hmem'
          · obtain ⟨e, he⟩ := hbad st.1 st.2
            rw [hd] at he
            exact Except.noConfusion he
          · obtain ⟨e, he⟩ := dupMembers_error nm i mem hbad xs hmem' (r.2.1, r.2.2)
            exact ⟨e, by simp only [he]⟩

/-- A failing member set makes the set-duplication loop fail. -/
theorem dupSets_error (nm : NodeMap) (i : ℕ) (ms : MemberSet)
    (hbad : ∀ (st : MMap × Counters),
      ∃ e, dupMembers nm i ms.members st = Except.error e) :
    ∀ (sets : List MemberSet), ms ∈ sets → ∀ (st : MMap × Counters),
      ∃ e, dupSets nm i sets st = Except.error e
  | [], hmem, _ => absurd hmem (List.not_mem_nil _)
  | s :: rest, hmem, st => by
      rw [dupSets]
      cases hd : dupMembers nm i s.members st with
      | error e => exact ⟨e, rfl⟩
      | ok r =>
          rcases List.mem_cons.mp hmem with rfl | hmem'
          · obtain ⟨e, he⟩ := hbad st
            rw [hd] at he
            exact Except.noConfusion he
          · obtain ⟨e, he⟩ := dupSets_error nm i ms hbad rest hmem'
              (r.2.1, (MemberSet.create r.2.2 r.1 s.classification s.L_y s.L_z none).2)
            exact ⟨e, by simp only [he]⟩

/-- A failing first copy index makes the whole copy loop fail. -/
theorem dupCopies_error_head (nm : NodeMap) (sets : List MemberSet) (i : ℕ)
    (rest : List ℕ) (st : MMap × Counters)
    (hbad : ∃ e, dupSets nm i sets st = Except.error e) :
    ∃ e, dupCopies nm sets (i :: rest) st = Except.error e := by
  obtain ⟨e, he⟩ := hbad
  rw [dupCopies, he]
  exact ⟨e, rfl⟩

/-- C2 amended: a duplicated member whose reference_node's source Node is
not among the walked nodes of the model (so no duplicate of it exists for
any copy index) makes create_combined_model_pattern fail fast with a
KeyError naming a node id and copy index; nothing is silently defaulted
for reference_node. -/
theorem C2_dangling_reference_node_fails_fast
    (model : FERS) (count : ℕ) (sp : Vec3) (c : Counters)
    (ms : MemberSet) (mem : Member) (rn : Node)
    (hcount : 2 ≤ count)
    (hms : ms ∈ model.member_sets) (hmem : mem ∈ ms.members)
    (href : mem.reference_node = some rn)
    (hdangling : rn.id ∉ model.get_all_nodes.map Node.id) :
    ∃ nid i, create_combined_model_pattern model count sp c
      = Except.error (PatternError.missing_node nid i) := by
  have hnone : nmLookup (buildNodeMapping model.get_all_nodes count sp c).1
      (NMKey.idCopy rn.id 1) = none :=
    nmLookup_none_of_not_mem model.get_all_nodes count sp c rn.id 1 hdangling
  have hbadMember := dupMember_error_of_ref
    (buildNodeMapping model.get_all_nodes count sp c).1 1 mem rn href hnone
  have hbadMembers : ∀ st : MMap × Counters,
      ∃ e, dupMembers (buildNodeMapping model.get_all_nodes count sp c).1 1
        ms.members st = Except.error e :=
    fun st => dupMembers_error _ 1 mem hbadMember ms.members hmem st
  have hbadSets :=
    dupSets_error (buildNodeMapping model.get_all_nodes count sp c).1 1 ms
      hbadMembers model.get_all_member_sets hms
      ([], (buildNodeMapping model.get_all_nodes count sp c).2)
  obtain ⟨len, hlen⟩ : ∃ len, count - 1 = len + 1 := ⟨count - 2, by omega⟩
  have hrange : List.range' 1 (count - 1) = 1 :: List.range' 2 len := by
    rw [hlen, List.range'_succ]
  obtain ⟨e, he⟩ := dupCopies_error_head
    (buildNodeMapping model.get_all_nodes count sp c).1
    model.get_all_member_sets 1 (List.range' 2 len)
    ([], (buildNodeMapping model.get_all_nodes count sp c).2) hbadSets
  simp only [create_combined_model_pattern]
  rw [hrange, he]
  cases e with
  | missing_node nid j => exact ⟨nid, j, rfl⟩

/-- C2 amended witness: a model whose only member's reference_node is the
orphan node 9, which is no member endpoint, makes replication with
count = 2 fail with a KeyError. -/
theorem C2_dangling_reference_node_fails_fast_witness :
    2 ≤ 2 ∧
    exMemRefNode.reference_node = some exOrphanNode ∧
    exOrphanNode.id ∉ exDanglingRefNodeModel.get_all_nodes.map Node.id ∧
    (∃ nid i, create_combined_model_pattern exDanglingRefNodeModel 2 (10, 0, 0)
        ⟨2, 1, 1⟩ = Except.error (PatternError.missing_node nid i)) :=
  ⟨by decide, rfl, by decide,
   C2_dangling_reference_node_fails_fast exDanglingRefNodeModel 2 (10, 0, 0)
     ⟨2, 1, 1⟩ ⟨0, [exMemRefNode], "", none, none⟩ exMemRefNode exOrphanNode
     (by decide) (by decide) (by decide) rfl (by decide)⟩

/-- Every member set produced by translate_model's rebuild loop has its
buckling lengths reset to absent. -/
theorem rebuildSets_L (ntm : NTMap) :
    ∀ (sets : List MemberSet) (c : Counters) (r : List MemberSet × Counters),
      rebuildSets ntm sets c = Except.ok r →
      ∀ s ∈ r.1, s.L_y = none ∧ s.L_z = none
  | [], _, r, hok, s, hs => by
      rw [rebuildSets] at hok
      cases hok
      exact absurd hs (List.not_mem_nil _)
  | ms :: rest, c, r, hok, s, hs => by
      rw [rebuildSets] at hok
      cases hm : rebuildMembers ntm ms.members c with
      | error e => rw [hm] at hok; exact Except.noConfusion hok
      | ok rr =>
          simp only [hm] at hok
          cases ht : rebuildSets ntm rest
              (MemberSet.create rr.2 rr.1 ms.classification none none
                (some ms.id)).2 with
          | error e => rw [ht] at hok; exact Except.noConfusion hok
          | ok rs =>
              simp only [ht] at hok
              cases hok
              rcases List.mem_cons.mp hs with rfl | hs'
              · exact ⟨rfl, rfl⟩
              · exact rebuildSets_L ntm rest _ _ ht s hs'

/-- Every member set produced by the pattern set-duplication loop carries
the buckling lengths and classification of some original member set. -/
theorem dupSets_L (nm : NodeMap) (i : ℕ) :
    ∀ (sets : List MemberSet) (st : MMap × Counters)
      (r : List MemberSet × MMap × Counters),
      dupSets nm i sets st = Except.ok r →
      ∀ s ∈ r.1, ∃ ms, ms ∈ sets ∧ s.L_y = ms.L_y ∧ s.L_z = ms.L_z ∧
        s.classification = ms.classification
  | [], _, r, hok, s, hs => by
      rw [dupSets] at hok
      cases hok
      exact absurd hs (List.not_mem_nil _)
  | ms :: rest, st, r, hok, s, hs => by
      rw [dupSets] at hok
      cases hm : dupMembers nm i ms.members st with
      | error e => rw [hm] at hok; exact Except.noConfusion hok
      | ok rr =>
          simp only [hm] at hok
          cases ht : dupSets nm i rest
              (rr.2.1, (MemberSet.create rr.2.2 rr.1 ms.classification ms.L_y
                ms.L_z none).2) with
          | error e => rw [ht] at hok; exact Except.noConfusion hok
          | ok rs =>
              simp only [ht] at hok
              cases hok
              rcases List.mem_cons.mp hs with rfl | hs'
              · exact ⟨ms, List.mem_cons_self _ _, rfl, rfl, rfl⟩
              · obtain ⟨ms', hms', h⟩ := dupSets_L nm i rest _ _ ht s hs'
                exact ⟨ms', List.mem_cons_of_mem _ hms', h⟩

/-- Every member set produced across all copy passes carries the buckling
lengths and classification of some original member set. -/
theorem dupCopies_L (nm : NodeMap) (sets : List MemberSet) :
    ∀ (is : List ℕ) (st : MMap × Counters)
      (r : List MemberSet × MMap × Counters),
      dupCopies nm sets is st = Except.ok r →
      ∀ s ∈ r.1, ∃ ms, ms ∈ sets ∧ s.L_y = ms.L_y ∧ s.L_z = ms.L_z ∧
        s.classification = ms.classification
  | [], _, r, hok, s, hs => by
      rw [dupCopies] at hok
      cases hok
      exact absurd hs (List.not_mem_nil _)
  | i :: rest, st, r, hok, s, hs => by
      rw [dupCopies] at hok
      cases hd : dupSets nm i sets st with
      | error e => rw [hd] at hok; exact Except.noConfusion hok
      | ok rr =>
          simp only [hd] at hok
          cases ht : dupCopies nm sets rest (rr.2.1, rr.2.2) with
          | error e => rw [ht] at hok; exact Except.noConfusion hok
          | ok rs =>
              simp only [ht] at hok
              cases hok
              rcases List.mem_append.mp hs with hs' | hs'
              · exact dupSets_L nm i sets st rr hd s hs'
              · exact dupCopies_L nm sets rest _ _ ht s hs'

/-- The rewiring pass only touches members; set-level fields survive. -/
theorem rewireSets_L (mm : MMap) (sets : List MemberSet) :
    ∀ s' ∈ rewireSets mm sets, ∃ s, s ∈ sets ∧ s'.L_y = s.L_y ∧
      s'.L_z = s.L_z ∧ s'.classification = s.classification := by
  intro s' hs'
  rw [rewireSets] at hs'
  rcases List.mem_map.mp hs' with ⟨s, hsmem, rfl⟩
  exact ⟨s, hsmem, rfl, rfl, rfl⟩

/-- C9: every member set of a translated model has L_y = L_z = none (the
group-level buckling lengths revert to their defaults because
translate_model passes only members, classification and member_set_id),
while every member set of a replicated model is either an original set or
carries the L_y, L_z and classification of some original set. -/
theorem C9_translate_drops_buckling_lengths :
    (∀ (model : FERS) (v : Vec3) (c : Counters) (r : FERS × Counters),
       translate_model model v c = Except.ok r →
       ∀ ms' ∈ r.1.member_sets, ms'.L_y = none ∧ ms'.L_z = none) ∧
    (∀ (model : FERS) (count : ℕ) (sp : Vec3) (c : Counters)
       (r : FERS × Counters),
       create_combined_model_pattern model count sp c = Except.ok r →
       ∀ ms' ∈ r.1.member_sets,
         ms' ∈ model.member_sets ∨
         ∃ ms, ms ∈ model.member_sets ∧ ms'.L_y = ms.L_y ∧ ms'.L_z = ms.L_z ∧
           ms'.classification = ms.classification) := by
  constructor
  · intro model v c r hok ms' hms'
    simp only [translate_model] at hok
    cases ht : rebuildSets (buildNTM v model.get_all_nodes c).1
        model.member_sets (buildNTM v model.get_all_nodes c).2 with
    | error e => rw [ht] at hok; exact Except.noConfusion hok
    | ok rr =>
        rw [ht] at hok
        cases hok
        exact rebuildSets_L _ _ _ _ ht ms' hms'
  · intro model count sp c r hok ms' hms'
    simp only [create_combined_model_pattern] at hok
    cases ht : dupCopies (buildNodeMapping model.get_all_nodes count sp c).1
        model.get_all_member_sets (List.range' 1 (count - 1))
        ([], (buildNodeMapping model.get_all_nodes count sp c).2) with
    | error e => rw [ht] at hok; exact Except.noConfusion hok
    | ok rr =>
        rw [ht] at hok
        cases hok
        rcases List.mem_append.mp hms' with h | h
        · exact Or.inl h
        · obtain ⟨s, hsmem, hL1⟩ := rewireSets_L rr.2.1 rr.1 ms' h
          obtain ⟨ms, hmsmem, hL2⟩ := dupCopies_L _ _ _ _ _ ht s hsmem
          exact Or.inr ⟨ms, hmsmem, hL1.1.trans hL2.1, hL1.2.1.trans hL2.2.1,
            hL1.2.2.trans hL2.2.2⟩

/-- C9 witness: translating the support-carrying model (whose only set has
L_y = 4, L_z = 6) yields a set with both lengths reset, while replicating
it with count 2 yields two sets both carrying L_y = 4, L_z = 6. -/
theorem C9_translate_drops_buckling_lengths_witness :
    translate_model exSupportModel (1, 0, 0) ⟨2, 1, 1⟩
      = Except.ok exC9translateRun ∧
    create_combined_model_pattern exSupportModel 2 (10, 0, 0) ⟨2, 1, 1⟩
      = Except.ok exC9patternRun ∧
    exSupportModel.member_sets.map (fun s => (s.L_y, s.L_z))
      = [(some 4, some 6)] ∧
    exC9translateRun.1.member_sets.map (fun s => (s.L_y, s.L_z))
      = [(none, none)] ∧
    exC9patternRun.1.member_sets.map (fun s => (s.L_y, s.L_z))
      = [(some 4, some 6), (some 4, some 6)] ∧
    (∀ ms' ∈ exC9translateRun.1.member_sets,
      ms'.L_y = none ∧ ms'.L_z = none) :=
  ⟨rfl, rfl, by decide, by decide, by decide,
   C9_translate_drops_buckling_lengths.1 exSupportModel (1, 0, 0) ⟨2, 1, 1⟩
     exC9translateRun rfl⟩

/-- The translation map pairs each walked node, in order, with an entry
keyed by the node's id whose node sits at coordinate + vector and has no
nodal support and no classification. -/
theorem buildNTM_forall2 (v : Vec3) :
    ∀ (nodes : List Node) (c : Counters),
      List.Forall₂ (fun (src : Node) (p : ℕ × Node) =>
        p.1 = src.id ∧ p.2.X = src.X + v.1 ∧ p.2.Y = src.Y + v.2.1 ∧
        p.2.Z = src.Z + v.2.2 ∧ p.2.nodal_support = none ∧
        p.2.classification = none) nodes (buildNTM v nodes c).1
  | [], _ => List.Forall₂.nil
  | n :: rest, c =>
      List.Forall₂.cons ⟨rfl, rfl, rfl, rfl, rfl, rfl⟩
        (buildNTM_forall2 v rest { c with node_id := c.node_id + 1 })

/-- The translation map has exactly one entry per walked node, keyed by
its id, in walk order. -/
theorem buildNTM_keys (v : Vec3) :
    ∀ (nodes : List Node) (c : Counters),
      (buildNTM v nodes c).1.map Prod.fst = nodes.map Node.id
  | [], _ => rfl
  | n :: rest, c => by
      show n.id :: ((buildNTM v rest { c with node_id := c.node_id + 1 }).1.map
        Prod.fst) = n.id :: rest.map Node.id
      rw [buildNTM_keys v rest]

/-- A lookup for a key present among the map's keys succeeds. -/
theorem ntmLookup_isSome_of_mem (ntm : NTMap) (nid : ℕ)
    (h : nid ∈ ntm.map Prod.fst) : (ntmLookup ntm nid).isSome = true := by
  rcases List.mem_map.mp h with ⟨p, hp, hfst⟩
  rw [ntmLookup, Option.isSome_map']
  exact List.find?_isSome.mpr ⟨p, hp, by simp [hfst]⟩

/-- Both endpoint ids of every member of the model occur among the ids of
get_all_nodes. -/
theorem endpoint_ids_covered (model : FERS) (ms : MemberSet) (mem : Member)
    (hms : ms ∈ model.member_sets) (hmem : mem ∈ ms.members) :
    mem.start_node.id ∈ model.get_all_nodes.map Node.id ∧
    mem.end_node.id ∈ model.get_all_nodes.map Node.id := by
  have hwalk : mem ∈ model.memberWalk := by
    rw [FERS.memberWalk]
    exact List.mem_flatten.mpr ⟨ms.members, List.mem_map_of_mem _ hms, hmem⟩
  constructor
  · have hn : mem.start_node ∈ model.nodeWalk := by
      rw [FERS.nodeWalk]
      exact List.mem_flatMap.mpr ⟨mem, hwalk, by simp⟩
    rcases firstSeenAux_covers Node.id model.nodeWalk [] mem.start_node hn with
      h | h
    · exact absurd h (List.not_mem_nil _)
    · exact h
  · have hn : mem.end_node ∈ model.nodeWalk := by
      rw [FERS.nodeWalk]
      exact List.mem_flatMap.mpr ⟨mem, hwalk, by simp⟩
    rcases firstSeenAux_covers Node.id model.nodeWalk [] mem.end_node hn with
      h | h
    · exact absurd h (List.not_mem_nil _)
    · exact h

/-- If both endpoint lookups of every member succeed, the member-rebuild
loop succeeds and pairs each member with a rebuild whose endpoints are the
lookup images. -/
theorem rebuildMembers_ok (ntm : NTMap) :
    ∀ (l : List Member) (c : Counters),
      (∀ mem ∈ l, (ntmLookup ntm mem.start_node.id).isSome = true ∧
        (ntmLookup ntm mem.end_node.id).isSome = true) →
      ∃ res c', rebuildMembers ntm l c = Except.ok (res, c') ∧
        List.Forall₂ (memberCorresponds ntm) l res
  | [], c, _ => ⟨[], c, rfl, List.Forall₂.nil⟩
  | mem :: rest, c, h => by
      obtain ⟨ns, hns⟩ := Option.isSome_iff_exists.mp
        (h mem (List.mem_cons_self _ _)).1
      obtain ⟨ne, hne⟩ := Option.isSome_iff_exists.mp
        (h mem (List.mem_cons_self _ _)).2
      obtain ⟨res, c', hok, hf⟩ := rebuildMembers_ok ntm rest
        { c with member_id := c.member_id + 1 }
        (fun m hm => h m (List.mem_cons_of_mem _ hm))
      have hrm : rebuildMember ntm mem c = Except.ok
          (⟨c.member_id, ns, ne, mem.section_id, mem.start_hinge, mem.end_hinge,
            mem.classification, none, none, none, none⟩,
           { c with member_id := c.member_id + 1 }) := by
        rw [rebuildMember, hns, hne]
        rfl
      refine ⟨⟨c.member_id, ns, ne, mem.section_id, mem.start_hinge,
        mem.end_hinge, mem.classification, none, none, none, none⟩ :: res, c',
        ?_, ?_⟩
      · rw [rebuildMembers, hrm]
        simp only [hok]
      · exact List.Forall₂.cons ⟨by rw [hns], by rw [hne]⟩ hf

/-- If every member of every set resolves, the set-rebuild loop succeeds
and pairs each set with a rebuild that keeps classification and id and
rebuilds the members through the map. -/
theorem rebuildSets_ok (ntm : NTMap) :
    ∀ (sets : List MemberSet) (c : Counters),
      (∀ ms ∈ sets, ∀ mem ∈ ms.members,
        (ntmLookup ntm mem.start_node.id).isSome = true ∧
        (ntmLookup ntm mem.end_node.id).isSome = true) →
      ∃ res c', rebuildSets ntm sets c = Except.ok (res, c') ∧
        List.Forall₂ (setCorresponds ntm) sets res
  | [], c, _ => ⟨[], c, rfl, List.Forall₂.nil⟩
  | ms :: rest, c, h => by
      obtain ⟨mres, mc, hmok, hmf⟩ := rebuildMembers_ok ntm ms.members c
        (h ms (List.mem_cons_self _ _))
      obtain ⟨res, c', hok, hf⟩ := rebuildSets_ok ntm rest mc
        (fun s hs => h s (List.mem_cons_of_mem _ hs))
      refine ⟨⟨ms.id, mres, ms.classification, none, none⟩ :: res, c', ?_, ?_⟩
      · rw [rebuildSets, hmok]
        simp only [MemberSet.create, hok]
      · exact List.Forall₂.cons ⟨rfl, rfl, hmf⟩ hf

/-- translate_model always succeeds and its output corresponds set-by-set
to the source through the translation map. -/
theorem translate_model_ok (model : FERS) (v : Vec3) (c : Counters) :
    ∃ r : FERS × Counters, translate_model model v c = Except.ok r ∧
      List.Forall₂ (setCorresponds (buildNTM v model.get_all_nodes c).1)
        model.member_sets r.1.member_sets := by
  have hcov : ∀ ms ∈ model.member_sets, ∀ mem ∈ ms.members,
      (ntmLookup (buildNTM v model.get_all_nodes c).1
        mem.start_node.id).isSome = true ∧
      (ntmLookup (buildNTM v model.get_all_nodes c).1
        mem.end_node.id).isSome = true := by
    intro ms hms mem hmem
    obtain ⟨h1, h2⟩ := endpoint_ids_covered model ms mem hms hmem
    rw [← buildNTM_keys v model.get_all_nodes c] at h1 h2
    exact ⟨ntmLookup_isSome_of_mem _ _ h1, ntmLookup_isSome_of_mem _ _ h2⟩
  obtain ⟨res, c', hok, hf⟩ := rebuildSets_ok
    (buildNTM v model.get_all_nodes c).1 model.member_sets
    (buildNTM v model.get_all_nodes c).2 hcov
  refine ⟨(⟨res⟩, c'), ?_, hf⟩
  simp only [translate_model]
  rw [hok]

/-- Positional transport of a pairwise relation along two lists. -/
theorem forall2_getElem2 {α β : Type} {R : α → β → Prop} :
    ∀ {l1 : List α} {l2 : List β}, List.Forall₂ R l1 l2 →
      ∀ (i : ℕ) (a : α) (b : β), l1[i]? = some a → l2[i]? = some b → R a b := by
  intro l1 l2 hf
  induction hf with
  | nil => intro i a b ha _; simp at ha
  | cons hr htail ih =>
      intro i a b ha hb
      cases i with
      | zero =>
          rw [List.getElem?_cons_zero] at ha hb
          cases ha
          cases hb
          exact hr
      | succ i' =>
          rw [List.getElem?_cons_succ] at ha hb
          exact ih i' a b ha hb

/-- C4 amended: translate_model always succeeds; the id-keyed translation
map holds, per unique source node in walk order, exactly one new node at
coordinate + vector with nodal_support and classification reset to none;
every rebuilt member set keeps classification and id with endpoints looked
up through that map; and two source members sharing an endpoint node id
get rebuilds sharing one and the same new node. -/
theorem C4_translate_model_amended (model : FERS) (v : Vec3) (c : Counters) :
    (∃ r : FERS × Counters, translate_model model v c = Except.ok r) ∧
    List.Forall₂ (fun (src : Node) (p : ℕ × Node) =>
      p.1 = src.id ∧ p.2.X = src.X + v.1 ∧ p.2.Y = src.Y + v.2.1 ∧
      p.2.Z = src.Z + v.2.2 ∧ p.2.nodal_support = none ∧
      p.2.classification = none)
      model.get_all_nodes (buildNTM v model.get_all_nodes c).1 ∧
    (∀ r : FERS × Counters, translate_model model v c = Except.ok r →
      List.Forall₂ (setCorresponds (buildNTM v model.get_all_nodes c).1)
        model.member_sets r.1.member_sets) ∧
    (∀ r : FERS × Counters, translate_model model v c = Except.ok r →
      ∀ i1 j1 i2 j2 mem1 mem2 mem1' mem2',
        memAt model i1 j1 = some mem1 → memAt model i2 j2 = some mem2 →
        memAt r.1 i1 j1 = some mem1' → memAt r.1 i2 j2 = some mem2' →
        mem1.end_node.id = mem2.start_node.id →
        mem1'.end_node = mem2'.start_node) := by
  obtain ⟨r0, hok0, hf0⟩ := translate_model_ok model v c
  refine ⟨⟨r0, hok0⟩, buildNTM_forall2 v model.get_all_nodes c, ?_, ?_⟩
  · intro r hok
    rw [hok0] at hok
    cases hok
    exact hf0
  · intro r hok i1 j1 i2 j2 mem1 mem2 mem1' mem2' h1 h2 h1' h2' hshare
    rw [hok0] at hok
    cases hok
    rw [memAt] at h1 h2 h1' h2'
    obtain ⟨s1, hs1, hm1⟩ := Option.bind_eq_some.mp h1
    obtain ⟨s2, hs2, hm2⟩ := Option.bind_eq_some.mp h2
    obtain ⟨s1', hs1', hm1'⟩ := Option.bind_eq_some.mp h1'
    obtain ⟨s2', hs2', hm2'⟩ := Option.bind_eq_some.mp h2'
    have hset1 := forall2_getElem2 hf0 i1 s1 s1' hs1 hs1'
    have hset2 := forall2_getElem2 hf0 i2 s2 s2' hs2 hs2'
    have hmem1 := forall2_getElem2 hset1.2.2 j1 mem1 mem1' hm1 hm1'
    have hmem2 := forall2_getElem2 hset2.2.2 j2 mem2 mem2' hm2 hm2'
    have hsome : some mem1'.end_node = some mem2'.start_node := by
      rw [← hmem1.2, hshare, hmem2.1]
    exact Option.some.inj hsome

/-- C4 amended witness: the theorem applied to the two-member chained
model; the translated nodes all lose support and classification and the
two rebuilt members share their middle node. -/
theorem C4_translate_model_witness :
    translate_model exRefModel (1, 0, 0) ⟨3, 2, 1⟩
      = Except.ok exC4translateRun ∧
    memAt exRefModel 0 0 = some exMemA ∧
    memAt exRefModel 0 1 = some exMemB ∧
    exMemA.end_node.id = exMemB.start_node.id ∧
    exC4translateRun.1.get_all_nodes.map
        (fun n => (n.id, n.nodal_support, n.classification))
      = [(3, none, none), (4, none, none), (5, none, none)] ∧
    (memAt exC4translateRun.1 0 0).map (fun mem => mem.end_node)
      = (memAt exC4translateRun.1 0 1).map (fun mem => mem.start_node) := by
  refine ⟨rfl, by decide, by decide, by decide, by decide, ?_⟩
  cases hm1 : memAt exC4translateRun.1 0 0 with
  | none => exact absurd hm1 (by decide)
  | some M1 =>
      cases hm2 : memAt exC4translateRun.1 0 1 with
      | none => exact absurd hm2 (by decide)
      | some M2 =>
          have hshared := (C4_translate_model_amended exRefModel (1, 0, 0)
              ⟨3, 2, 1⟩).2.2.2 exC4translateRun rfl 0 0 0 1 exMemA exMemB M1 M2
            (by decide) (by decide) hm1 hm2 (by decide)
          rw [Option.map_some', Option.map_some', hshared]
